import Mathlib

/-!
Verification of the trending-video pipeline of the genAI-youtube-dashboard
repository against its natural-language specification.

The development shallow-embeds the relevant TypeScript code:

* `src/app/api/youtube/trending/route.ts` — the trending route: per-query
  filtering / mapping (`isShort`, `fetchVideosForQuery`), the parallel
  fan-out with quota short-circuit (`fetchTrendingVideos`), and the `GET`
  handler with its in-process cache and mock-data fallback.
* `youtube-data.ts` — the `APICache` (TTL key/value store with
  `getCacheKey` serialization), `fetchWithRetry`, and
  `calculateQualityScore`.

Conventions of the embedding:

* Times are integer (or rational, for the scoring engine) millisecond
  timestamps; `Date.now()` becomes an explicit `now` parameter.
* Upstream JSON decimal count strings (`statistics.viewCount` …) are
  pre-parsed to `Nat`, and ISO date strings to millisecond timestamps;
  ISO 8601 durations are kept as strings and parsed by a model of the
  `PT(\d+H)?(\d+M)?(\d+S)?` regex used throughout the code.
* JavaScript `Map` objects become association lists with JS `Map`
  update-in-place / delete semantics.
* Network effects are abstracted into explicit outcome values: a branch of
  the fan-out yields an `ok` video list, a quota rejection, or another
  rejection; `fetch` inside the retry loop yields an ok response, an HTTP
  error status (with a flag for a parsed quota reason), or a network error.
-/

namespace YTDash

/-! ### String helpers -/

/-- Substring test on character lists: JavaScript `String.prototype.includes`. -/
def containsSub (s pat : List Char) : Bool :=
  match s with
  | [] => pat.isEmpty
  | c :: cs => pat.isPrefixOf (c :: cs) || containsSub cs pat

/-- JavaScript `s.includes(pat)`. -/
def strContains (s pat : String) : Bool :=
  containsSub s.data pat.data

/-- JavaScript `s.toLowerCase()` (character-wise, as in core
`String.toLower`, but by structural recursion over the character list so
that the kernel can evaluate it). -/
def strLower (s : String) : String :=
  ⟨s.data.map Char.toLower⟩

/-- JavaScript `s.toUpperCase()`. -/
def strUpper (s : String) : String :=
  ⟨s.data.map Char.toUpper⟩

/-! ### ISO 8601 duration parsing

Models `duration.match(/PT(?:(\d+)H)?(?:(\d+)M)?(?:(\d+)S)?/)` followed by
`parseInt` of the three groups, as written in `parseDurationSeconds`
(route.ts) and inline in `isShort` / `getVideoPerformance`
(youtube-data.ts).  The regex matches at the first occurrence of `PT`; each
group is optional and the match backtracks past the digits when the unit
letter that follows them is not the expected one. -/

def digitsToNat (ds : List Char) : Nat :=
  ds.foldl (fun acc c => acc * 10 + (c.toNat - 48)) 0

/-- Try to consume `(\d+)X` for unit letter `X`; on failure the input is
left untouched (regex backtracking over an optional group). -/
def tryGroup (marker : Char) (cs : List Char) : Option (Nat × List Char) :=
  let ds := cs.takeWhile (·.isDigit)
  let rest := cs.dropWhile (·.isDigit)
  if ds.isEmpty then none
  else
    match rest with
    | m :: rest2 => if m = marker then some (digitsToNat ds, rest2) else none
    | [] => none

def parseAfterPT (cs : List Char) : Nat :=
  let p1 := match tryGroup 'H' cs with
    | some (n, r) => (n, r)
    | none => (0, cs)
  let p2 := match tryGroup 'M' p1.2 with
    | some (n, r) => (n, r)
    | none => (0, p1.2)
  let p3 := match tryGroup 'S' p2.2 with
    | some (n, r) => (n, r)
    | none => (0, p2.2)
  p1.1 * 3600 + p2.1 * 60 + p3.1

/-- Position of the first `PT` in the string, if any. -/
def findPT : List Char → Option (List Char)
  | [] => none
  | 'P' :: 'T' :: rest => some rest
  | _ :: rest => findPT rest

/-- `parseDurationSeconds` of route.ts: total seconds of an ISO 8601
duration, `0` when the regex does not match. -/
def parseDurationSeconds (duration : String) : Nat :=
  match findPT duration.data with
  | none => 0
  | some rest => parseAfterPT rest

/-! ### Upstream client: `fetchWithRetry` (youtube-data.ts)

The loop body per attempt `i` (0-based) is modelled on an environment
`env : Nat → FetchOutcome` giving the result of the `fetch` call of each
attempt.  The result records how the call returned and which backoff
delays (in ms) were slept through. -/

/-- Result of one `fetch(url)` call inside `fetchWithRetry`. -/
inductive FetchOutcome
  /-- 2xx response (`response.ok`). -/
  | okResp
  /-- Non-2xx response with the given status; `quotaReason` is true when the
  body is a 403 payload whose error list carries `quotaExceeded` or
  `rateLimitExceeded`. -/
  | httpErr (status : Nat) (quotaReason : Bool)
  /-- The `fetch` promise itself rejected (network error). -/
  | netErr
deriving DecidableEq, Repr

/-- How `fetchWithRetry` returned: `success i` / `apiError _ _ i` /
`netFail i` say the function returned or threw out of attempt `i`
(1-based); `exhausted` is the trailing `throw new Error("Failed to fetch
after retries")` reachable only with `retries = 0`. -/
inductive RetryResult
  | success (attempt : Nat)
  | apiError (status : Nat) (quota : Bool) (attempt : Nat)
  | netFail (attempt : Nat)
  | exhausted
deriving DecidableEq, Repr

/-- The `for (let i = 0; i < retries; i++)` loop of `fetchWithRetry`,
with `rem + 1` iterations left at index `i`.  A `YouTubeAPIError`
(quota 403 or any other non-ok status) is rethrown by the catch block at
once; only other thrown errors are retried, sleeping
`backoff * 2 ^ i` before the next attempt. -/
def fetchLoop (env : Nat → FetchOutcome) (backoff : Nat) :
    Nat → Nat → List Nat → RetryResult × List Nat
  | _, 0, delays => (.exhausted, delays)
  | i, rem + 1, delays =>
    match env i with
    | .okResp => (.success (i + 1), delays)
    | .httpErr st q => (.apiError st (decide (st = 403) && q) (i + 1), delays)
    | .netErr =>
      if rem = 0 then (.netFail (i + 1), delays)
      else fetchLoop env backoff (i + 1) rem (delays ++ [backoff * 2 ^ i])

/-- `fetchWithRetry(url, retries = 3, backoff = 1000)` of youtube-data.ts. -/
def fetchWithRetryModel (env : Nat → FetchOutcome)
    (retries : Nat := 3) (backoff : Nat := 1000) : RetryResult × List Nat :=
  fetchLoop env backoff 0 retries []

/-! ### Data model of the trending route (route.ts) -/

/-- One element of `detailsData.items` (`YouTubeVideoItem`), with count
strings pre-parsed to `Nat` and `publishedAt` to a millisecond timestamp. -/
structure YTVideoItem where
  id : String
  title : String
  channelTitle : String
  channelId : String
  publishedAtMs : Int
  thumbHigh : Option String
  thumbDefault : Option String
  tags : List String
  viewCount : Nat
  likeCount : Nat
  commentCount : Nat
  duration : String
deriving DecidableEq, Repr

/-- The response record `TrendingVideoResult` of route.ts. -/
structure TrendingVideoResult where
  videoId : String
  title : String
  channel : String
  views : String
  viewCount : Nat
  timeAgo : String
  thumbnail : String
  category : String
  rank : Nat
  rating : Option String
deriving DecidableEq, Repr

/-- A `TrendingVideoResult` still carrying the `_durationSeconds` helper
field used by the quality filter; route.ts strips it when ranks are
assigned. -/
structure ScoredEntry extends TrendingVideoResult where
  durationSeconds : Nat
deriving DecidableEq, Repr

/-- `{...v, rank: 0}` — comparison of entries up to the recomputed rank. -/
def eraseRank (v : TrendingVideoResult) : TrendingVideoResult :=
  { v with rank := 0 }

/-! ### Formatting and classification helpers (route.ts) -/

/-- `Number.prototype.toFixed(1)` on `n / d` for positive rationals
(round half up), rendered with one decimal digit. -/
def fixed1 (n d : Nat) : String :=
  let t := (10 * n + d / 2) / d
  toString (t / 10) ++ "." ++ toString (t % 10)

/-- `formatViews` of route.ts. -/
def formatViews (views : Nat) : String :=
  if views ≥ 1000000 then fixed1 views 1000000 ++ "M"
  else if views ≥ 1000 then toString ((views + 500) / 1000) ++ "K"
  else toString views

/-- `formatTimeAgo` of route.ts, with `Date.now()` and the parsed
`publishedAt` date as explicit millisecond timestamps. -/
def formatTimeAgo (now publishedAtMs : Int) : String :=
  let diffMs := now - publishedAtMs
  let diffDays := Int.fdiv diffMs (1000 * 60 * 60 * 24)
  if diffDays = 0 then "Today"
  else if diffDays = 1 then "1 day ago"
  else if diffDays < 7 then toString diffDays ++ " days ago"
  else
    let diffWeeks := Int.fdiv diffDays 7
    if diffWeeks = 1 then "1 week ago"
    else toString diffWeeks ++ " weeks ago"

/-- `isShort` of route.ts: `#shorts` / `#short` in the lower-cased title,
a `shorts` / `#shorts` tag, or a parsed duration of at most 60 seconds. -/
def isShort (item : YTVideoItem) : Bool :=
  let title := strLower item.title
  (strContains title "#shorts" || strContains title "#short") ||
  (item.tags.any fun t => strLower t == "shorts" || strLower t == "#shorts") ||
  decide (parseDurationSeconds item.duration ≤ 60)

/-- `getRating` of route.ts. -/
def getRating (views : Nat) : String :=
  if views ≥ 500000 then "Viral"
  else if views ≥ 100000 then "Excellent"
  else if views ≥ 50000 then "Great"
  else "Good"

/-- `categorizeVideo` of route.ts. -/
def categorizeVideo (title : String) (tags : List String) : String :=
  let text := strLower (title ++ " " ++ String.intercalate " " tags)
  if strContains text "react" || strContains text "next.js" ||
      strContains text "nextjs" then "React"
  else if strContains text "ai" || strContains text "machine learning" ||
      strContains text "gpt" || strContains text "llm" ||
      strContains text "deep learning" then "AI & ML"
  else if strContains text "career" || strContains text "interview" ||
      strContains text "job" || strContains text "salary" then "Tech Careers"
  else if strContains text "javascript" || strContains text "typescript" ||
      strContains text "node" then "JavaScript"
  else if strContains text "open source" || strContains text "github" ||
      strContains text "contribute" then "Open Source"
  else if strContains text "css" || strContains text "html" ||
      strContains text "web" || strContains text "frontend" ||
      strContains text "backend" then "Web Dev"
  else "Web Dev"

/-- JavaScript `a?.x || b` where an empty string is falsy. -/
def orElseStr (a : Option String) (b : String) : String :=
  match a with
  | some s => if s = "" then b else s
  | none => b

/-- Quality floor `MIN_VIEWS` of route.ts. -/
def MIN_VIEWS : Nat := 5000

/-- Quality floor `MIN_DURATION_SECONDS` of route.ts. -/
def MIN_DURATION_SECONDS : Nat := 3 * 60

/-- The `.map` body of `fetchVideosForQuery`: one details item to one
result record (with the `_durationSeconds` helper field). -/
def videoToEntry (now : Int) (item : YTVideoItem) : ScoredEntry :=
  let views := item.viewCount
  let durationSeconds := parseDurationSeconds item.duration
  { videoId := item.id
    title := item.title
    channel := strUpper item.channelTitle
    views := formatViews views
    viewCount := views
    timeAgo := formatTimeAgo now item.publishedAtMs
    thumbnail := orElseStr item.thumbHigh (orElseStr item.thumbDefault "")
    category := categorizeVideo item.title item.tags
    rank := 0
    rating := some (getRating views)
    durationSeconds := durationSeconds }

/-- The pure tail of `fetchVideosForQuery` (route.ts lines 211–233): filter
out shorts, map each item to a result record, and apply the view and
duration floors. -/
def processDetailsItems (now : Int) (items : List YTVideoItem) : List ScoredEntry :=
  ((items.filter fun item => !isShort item).map (videoToEntry now)).filter
    fun v => decide (v.viewCount ≥ MIN_VIEWS) &&
      decide (v.durationSeconds ≥ MIN_DURATION_SECONDS)

/-! ### Fan-out aggregation: `fetchTrendingVideos` (route.ts)

`Promise.allSettled` over the ten `SEARCH_QUERIES` yields one settled
outcome per branch, in query order.  The collection loop then walks the
outcomes: a rejection with `YouTubeQuotaExceededError` is rethrown (the
whole batch fails), any other rejection is skipped, and the videos of a
fulfilled branch are appended unless their id was already seen. -/

/-- One settled branch of the fan-out. -/
inductive BranchOutcome
  /-- The branch fulfilled with these (already filtered/mapped) videos. -/
  | ok (videos : List ScoredEntry)
  /-- The branch rejected with `YouTubeQuotaExceededError`. -/
  | quotaErr
  /-- The branch rejected with any other error. -/
  | otherErr
deriving DecidableEq, Repr

/-- The inner loop of `fetchTrendingVideos` over the videos of one
fulfilled branch: append each video whose id is unseen and record its id.
Returns the extended seen set and the appended videos. -/
def addVideos (seen : List String) :
    List ScoredEntry → List String × List ScoredEntry
  | [] => (seen, [])
  | v :: vs =>
    if v.videoId ∈ seen then addVideos seen vs
    else
      let p := addVideos (v.videoId :: seen) vs
      (p.1, v :: p.2)

/-- The outer collection loop of `fetchTrendingVideos` over the settled
branch outcomes: `none` is the rethrown quota error. -/
def collectLoop (seen : List String) :
    List BranchOutcome → Option (List ScoredEntry)
  | [] => some []
  | .quotaErr :: _ => none
  | .otherErr :: rest => collectLoop seen rest
  | .ok ws :: rest =>
    let p := addVideos seen ws
    (collectLoop p.1 rest).map (fun l => p.2 ++ l)

/-- The deduplicated video list of `fetchTrendingVideos` before sorting. -/
def collectVideos (outcomes : List BranchOutcome) : Option (List ScoredEntry) :=
  collectLoop [] outcomes

/-- First-occurrence deduplication of a flat list with an initial seen set —
the specification of what `collectGo` computes on the concatenation of the
fulfilled branches. -/
def dedupList (seen : List String) : List ScoredEntry → List ScoredEntry
  | [] => []
  | v :: rest =>
    if v.videoId ∈ seen then dedupList seen rest
    else v :: dedupList (v.videoId :: seen) rest

/-- Concatenation of the video lists of the fulfilled branches, in branch
order: the discovery order of the fan-out. -/
def flattenOk : List BranchOutcome → List ScoredEntry
  | [] => []
  | .ok vs :: rest => vs ++ flattenOk rest
  | .quotaErr :: rest => flattenOk rest
  | .otherErr :: rest => flattenOk rest

/-- Whether one of the branch outcomes is a quota rejection. -/
def hasQuota : List BranchOutcome → Bool
  | [] => false
  | .quotaErr :: _ => true
  | .ok _ :: rest => hasQuota rest
  | .otherErr :: rest => hasQuota rest

/-- Insertion step of the stable descending sort
`allVideos.sort((a, b) => b.viewCount - a.viewCount)`. -/
def insertByViews (x : ScoredEntry) : List ScoredEntry → List ScoredEntry
  | [] => [x]
  | y :: ys =>
    if y.viewCount ≤ x.viewCount then x :: y :: ys
    else y :: insertByViews x ys

/-- Stable sort by descending `viewCount`; JavaScript `Array.prototype.sort`
is stable, and a stable sort under this comparator is unique, so insertion
sort is an exact model. -/
def sortByViews : List ScoredEntry → List ScoredEntry
  | [] => []
  | x :: xs => insertByViews x (sortByViews xs)

/-- `allVideos.map(({_durationSeconds, ...rest}, i) => ({...rest, rank: i + 1}))`
starting at rank `i`: strip the helper field and assign dense ranks. -/
def finalize (i : Nat) : List ScoredEntry → List TrendingVideoResult
  | [] => []
  | e :: rest => { e.toTrendingVideoResult with rank := i } :: finalize (i + 1) rest

/-- `fetchTrendingVideos` of route.ts over the settled branch outcomes:
collect and deduplicate (rethrowing quota errors), sort by views
descending, assign ranks. -/
def fetchTrendingVideosModel (outcomes : List BranchOutcome) :
    Option (List TrendingVideoResult) :=
  (collectVideos outcomes).map fun vids => finalize 1 (sortByViews vids)

/-! ### The route-level cache and the `GET` handler (route.ts)

The module-level `Map` cache is an association list with JavaScript `Map`
semantics (update in place, delete the entry of a key). -/

/-- JS `Map.get`. -/
def mapGet {β : Type} : List (String × β) → String → Option β
  | [], _ => none
  | p :: rest, k => if p.1 == k then some p.2 else mapGet rest k

/-- JS `Map.set`: replace in place, else append. -/
def mapSet {β : Type} : List (String × β) → String → β → List (String × β)
  | [], k, v => [(k, v)]
  | p :: rest, k, v =>
    if p.1 == k then (k, v) :: rest else p :: mapSet rest k v

/-- JS `Map.delete`. -/
def mapDelete {β : Type} : List (String × β) → String → List (String × β)
  | [], _ => []
  | p :: rest, k => if p.1 == k then rest else p :: mapDelete rest k

/-- `CacheEntry` of route.ts. -/
structure RouteCacheEntry where
  data : List TrendingVideoResult
  timestamp : Int
deriving DecidableEq, Repr

/-- The module-level `cache` map of route.ts. -/
abbrev RouteCache := List (String × RouteCacheEntry)

/-- `CACHE_TTL_MS` of route.ts (1 hour). -/
def CACHE_TTL_MS : Int := 60 * 60 * 1000

/-- `getCached` of route.ts: read a key, lazily deleting an expired entry;
returns the looked-up value and the cache afterwards. -/
def getCached (c : RouteCache) (now : Int) (key : String) :
    Option (List TrendingVideoResult) × RouteCache :=
  match mapGet c key with
  | none => (none, c)
  | some entry =>
    if now - entry.timestamp > CACHE_TTL_MS then (none, mapDelete c key)
    else (some entry.data, c)

/-- `setCache` of route.ts. -/
def setCache (c : RouteCache) (now : Int) (key : String)
    (data : List TrendingVideoResult) : RouteCache :=
  mapSet c key { data := data, timestamp := now }

/-- A `NextResponse.json` value of the `GET` handler: a success payload is
served with the default 200 status, an error object with an explicit one. -/
inductive ApiResponse
  | json (videos : List TrendingVideoResult)
  | jsonError (msg : String) (status : Nat)
deriving DecidableEq, Repr

/-- The missing-credential error body of route.ts. -/
def missingKeyMsg : String :=
  "YouTube API key not configured. Set NEXT_PUBLIC_YOUTUBE_API_KEY in .env.local."

/-- The `MOCK_TRENDING_VIDEOS` fallback filtered by the requested category,
as in the catch block of `GET`. -/
def fallbackFor (mock : List TrendingVideoResult) (category : Option String) :
    List TrendingVideoResult :=
  match category with
  | some c => mock.filter fun v => v.category == c
  | none => mock

/-- The `GET` handler of route.ts.  `mock` is the static
`MOCK_TRENDING_VIDEOS` dataset (imported from a module outside the
embedded sources and therefore kept abstract), `apiKey` the value of
`NEXT_PUBLIC_YOUTUBE_API_KEY`, `c` the module cache and `outcomes` the
settled fan-out branches.  Returns the response and the cache afterwards. -/
def GETtrending (mock : List TrendingVideoResult) (apiKey : Option String)
    (now : Int) (category : Option String) (c : RouteCache)
    (outcomes : List BranchOutcome) : ApiResponse × RouteCache :=
  if apiKey.isNone then (.jsonError missingKeyMsg 500, c)
  else
    let cacheKey := category.getD "all"
    let looked := getCached c now cacheKey
    match looked.1 with
    | some data => (.json data, looked.2)
    | none =>
      match fetchTrendingVideosModel outcomes with
      | some allVideos =>
        let c2 := setCache looked.2 now "all" allVideos
        let result := match category with
          | some cat => allVideos.filter fun v => v.category == cat
          | none => allVideos
        let c3 := match category with
          | some cat => setCache c2 now cat result
          | none => c2
        (.json result, c3)
      | none => (.json (fallbackFor mock category), looked.2)

/-! ### `APICache` of youtube-data.ts

Cache key derivation is
`youtube_${prefix}_${JSON.stringify(params)}`; `JSON.stringify`
serializes the fields of a flat object literal in insertion order, so the
parameter record is modelled as an ordered list of field/value pairs. -/

/-- A JSON-serializable parameter value (the params records of the code
only carry strings and numbers). -/
inductive JVal
  | str (s : String)
  | num (n : Int)
deriving DecidableEq, Repr

/-- `JSON.stringify` of one leaf value. -/
def jvalToJSON : JVal → String
  | .str s => "\"" ++ s ++ "\""
  | .num n => toString n

/-- Comma-separated `"field":value` fragments, in insertion order. -/
def serializeFields : List (String × JVal) → String
  | [] => ""
  | [p] => "\"" ++ p.1 ++ "\":" ++ jvalToJSON p.2
  | p :: q :: rest =>
    "\"" ++ p.1 ++ "\":" ++ jvalToJSON p.2 ++ "," ++ serializeFields (q :: rest)

/-- `JSON.stringify(params)` for a flat object literal. -/
def jsonStringify (params : List (String × JVal)) : String :=
  "\x7b" ++ serializeFields params ++ "\x7d"

/-- `APICache.getCacheKey`. -/
def getCacheKey (ns : String) (params : List (String × JVal)) : String :=
  "youtube_" ++ ns ++ "_" ++ jsonStringify params

/-- A stored `CacheEntry<T>` of youtube-data.ts. -/
structure APICacheEntry (α : Type) where
  data : α
  timestamp : Int
  expiresAt : Int
deriving DecidableEq, Repr

/-- The private `Map` of `APICache` (one homogeneous view of it: the claims
under verification never mix namespaces of different payload types). -/
abbrev APICacheState (α : Type) := List (String × APICacheEntry α)

/-- `APICache.get`: look the derived key up and lazily delete the entry
when `Date.now() > entry.expiresAt`; returns the value and the state
afterwards (the `saveToStorage` mirror write is outside the model). -/
def cacheGet {α : Type} (st : APICacheState α) (now : Int) (ns : String)
    (params : List (String × JVal)) : Option α × APICacheState α :=
  let key := getCacheKey ns params
  match mapGet st key with
  | none => (none, st)
  | some entry =>
    if now > entry.expiresAt then (none, mapDelete st key)
    else (some entry.data, st)

/-- `APICache.set`: store the value with `expiresAt = now + ttl`. -/
def cacheSet {α : Type} (st : APICacheState α) (now : Int) (ns : String)
    (params : List (String × JVal)) (data : α) (ttl : Int) : APICacheState α :=
  mapSet st (getCacheKey ns params) { data := data, timestamp := now, expiresAt := now + ttl }

/-! ### Scoring engine: `calculateQualityScore` (youtube-data.ts)

The arithmetic is carried out over `ℚ`; on the inputs of the scenario
under verification every JavaScript double operation is exact (or capped
by the `min`), so the rational model agrees with the code. -/

/-- `likeScore`: `Math.min(likeRatio / 5, 1) * 40` where `likeRatio` is
`views > 0 ? (likes / views) * 100 : 0`. -/
def likeScoreOf (views likes : ℚ) : ℚ :=
  let lr := if views > 0 then likes / views * 100 else 0
  min (lr / 5) 1 * 40

/-- `hoursOld`: hours since publication, floored at 1. -/
def hoursOldOf (nowMs publishedAtMs : ℚ) : ℚ :=
  max ((nowMs - publishedAtMs) / (1000 * 60 * 60)) 1

/-- `velocityScore`: `Math.min(viewsPerHour / 500, 1) * 30`. -/
def velocityScoreOf (views nowMs publishedAtMs : ℚ) : ℚ :=
  let viewsPerHour := views / hoursOldOf nowMs publishedAtMs
  min (viewsPerHour / 500) 1 * 30

/-- `durationScore`: 30 in the 5–20 minute sweet spot, 20 in 3–40 minutes,
else 10. -/
def durationScoreOf (durationSeconds : ℚ) : ℚ :=
  let durationMinutes := durationSeconds / 60
  if 5 ≤ durationMinutes ∧ durationMinutes ≤ 20 then 30
  else if 3 ≤ durationMinutes ∧ durationMinutes ≤ 40 then 20
  else 10

/-- `calculateQualityScore` of youtube-data.ts; `Math.round` rounds half
up, as `round` does on `ℚ`. -/
def calculateQualityScore (views likes : ℚ) (nowMs publishedAtMs : ℚ)
    (durationSeconds : ℚ) : ℤ :=
  round (likeScoreOf views likes + velocityScoreOf views nowMs publishedAtMs +
    durationScoreOf durationSeconds)

/-! ### Concrete demonstration data for the witnesses -/

/-- A well-formed non-short entry used by concrete witnesses. -/
def demoEntry : ScoredEntry :=
  { videoId := "a", title := "react", channel := "C", views := "5K",
    viewCount := 5000, timeAgo := "Today", thumbnail := "",
    category := "React", rank := 0, rating := some "Good",
    durationSeconds := 200 }

/-- A second entry with a distinct id and a higher view count. -/
def demoEntryB : ScoredEntry :=
  { demoEntry with videoId := "b", viewCount := 9000 }

/-- An entry sharing `demoEntry`'s id but with different statistics. -/
def demoEntryDup : ScoredEntry :=
  { demoEntry with title := "react copy", viewCount := 9000 }

/-- A concrete non-short details item passing the quality floors. -/
def demoItem : YTVideoItem :=
  { id := "a", title := "react", channelTitle := "c", channelId := "ch",
    publishedAtMs := 0, thumbHigh := none, thumbDefault := none, tags := [],
    viewCount := 5000, likeCount := 0, commentCount := 0,
    duration := "PT3M20S" }

/-- A details item that is a short (duration 30s and a `#shorts` title). -/
def demoItemShort : YTVideoItem :=
  { demoItem with id := "b", title := "react #shorts", duration := "PT30S" }

/-! ### Lemmas about the aggregation pipeline -/

/-- The videos appended by the inner loop are the first-occurrence
deduplication of the branch. -/
theorem addVideos_snd (l : List ScoredEntry) (seen : List String) :
    (addVideos seen l).2 = dedupList seen l := by
  induction l generalizing seen with
  | nil => rfl
  | cons v vs ih =>
    rw [addVideos, dedupList]
    by_cases hv : v.videoId ∈ seen
    · rw [if_pos hv, if_pos hv, ih]
    · rw [if_neg hv, if_neg hv]
      simp [ih]

/-- Deduplication splits over concatenation along the threaded seen set. -/
theorem dedupList_append (l1 l2 : List ScoredEntry) (seen : List String) :
    dedupList seen (l1 ++ l2) =
      dedupList seen l1 ++ dedupList (addVideos seen l1).1 l2 := by
  induction l1 generalizing seen with
  | nil => rfl
  | cons v vs ih =>
    rw [List.cons_append, dedupList, dedupList, addVideos]
    by_cases hv : v.videoId ∈ seen
    · rw [if_pos hv, if_pos hv, if_pos hv, ih]
    · rw [if_neg hv, if_neg hv, if_neg hv]
      simp [ih]

/-- The collection loop computes first-occurrence deduplication of the
concatenated fulfilled branches, failing exactly when a quota rejection is
among the outcomes. -/
theorem collectLoop_eq (outcomes : List BranchOutcome) (seen : List String) :
    collectLoop seen outcomes =
      if hasQuota outcomes then none
      else some (dedupList seen (flattenOk outcomes)) := by
  induction outcomes generalizing seen with
  | nil => simp [collectLoop, hasQuota, dedupList]
  | cons o rest ih =>
    cases o with
    | quotaErr => simp [collectLoop, hasQuota]
    | otherErr =>
      rw [collectLoop]
      simpa [hasQuota, flattenOk] using ih seen
    | ok ws =>
      rw [collectLoop, ih, hasQuota, flattenOk]
      by_cases hq : hasQuota rest
      · simp [hq]
      · simp only [hq, Bool.false_eq_true, if_false, Option.map_some']
        rw [dedupList_append, addVideos_snd]

theorem collectVideos_eq (outcomes : List BranchOutcome) :
    collectVideos outcomes =
      if hasQuota outcomes then none
      else some (dedupList [] (flattenOk outcomes)) :=
  collectLoop_eq outcomes []

/-- Characterization of a successful aggregation. -/
theorem model_eq_some (outcomes : List BranchOutcome)
    (out : List TrendingVideoResult) :
    fetchTrendingVideosModel outcomes = some out ↔
      hasQuota outcomes = false ∧
      out = finalize 1 (sortByViews (dedupList [] (flattenOk outcomes))) := by
  rw [fetchTrendingVideosModel, collectVideos_eq]
  by_cases hq : hasQuota outcomes <;> simp [hq, eq_comm]

theorem hasQuota_of_mem (outcomes : List BranchOutcome)
    (h : BranchOutcome.quotaErr ∈ outcomes) : hasQuota outcomes = true := by
  induction outcomes with
  | nil => simp at h
  | cons o rest ih =>
    cases o <;> simp_all [hasQuota]

/-! ### Lemmas about deduplication -/

theorem dedupList_sublist (seen : List String) (l : List ScoredEntry) :
    (dedupList seen l).Sublist l := by
  induction l generalizing seen with
  | nil => simp [dedupList]
  | cons v rest ih =>
    rw [dedupList]
    by_cases hv : v.videoId ∈ seen
    · exact (if_pos hv ▸ (ih seen).cons v)
    · exact (if_neg hv ▸ (ih (v.videoId :: seen)).cons₂ v)

theorem find?_cons_eq {α : Type} (p : α → Bool) (a : α) (l : List α) :
    (a :: l).find? p = if p a then some a else l.find? p := by
  cases hpa : p a <;> simp [List.find?, hpa]

theorem countP_dedupList (l : List ScoredEntry) (seen : List String) (id : String) :
    (dedupList seen l).countP (fun e => e.videoId == id) =
      if id ∈ seen then 0
      else min 1 (l.countP fun e => e.videoId == id) := by
  induction l generalizing seen with
  | nil => simp [dedupList]
  | cons v rest ih =>
    rw [dedupList]
    by_cases hv : v.videoId ∈ seen
    · rw [if_pos hv, ih]
      by_cases hid : id ∈ seen
      · simp [hid]
      · have hne : (v.videoId == id) = false := by
          refine beq_eq_false_iff_ne.mpr ?_
          intro hcontra
          exact hid (hcontra ▸ hv)
        simp [hid, List.countP_cons, hne]
    · rw [if_neg hv, List.countP_cons, ih]
      by_cases he : v.videoId = id
      · have hidseen : id ∉ seen := fun h => hv (he ▸ h)
        simp only [he, List.mem_cons, true_or, if_pos, beq_self_eq_true,
          if_true, List.countP_cons, if_neg hidseen]
        simp
        try omega
      · have hne : (v.videoId == id) = false := by simp [he]
        have hmm : ¬ id = v.videoId := fun h => he h.symm
        simp only [hne, List.countP_cons, List.mem_cons, hmm, false_or]
        by_cases hid : id ∈ seen <;> simp [hid]

/-- Each entry kept by deduplication is the first occurrence of its id. -/
theorem mem_dedupList_first (l : List ScoredEntry) (seen : List String)
    (e : ScoredEntry) (he : e ∈ dedupList seen l) :
    e.videoId ∉ seen ∧
      l.find? (fun x => x.videoId == e.videoId) = some e := by
  induction l generalizing seen with
  | nil => simp [dedupList] at he
  | cons v rest ih =>
    rw [dedupList] at he
    by_cases hv : v.videoId ∈ seen
    · rw [if_pos hv] at he
      obtain ⟨hnot, hfind⟩ := ih seen he
      refine ⟨hnot, ?_⟩
      have hne : (v.videoId == e.videoId) = false := by
        refine beq_eq_false_iff_ne.mpr ?_
        intro hvid
        exact hnot (hvid ▸ hv)
      rw [find?_cons_eq]
      simp [hne, hfind]
    · rw [if_neg hv] at he
      rcases List.mem_cons.mp he with rfl | hmem
      · exact ⟨hv, by rw [find?_cons_eq]; simp⟩
      · obtain ⟨hnot, hfind⟩ := ih (v.videoId :: seen) hmem
        have hnv : e.videoId ≠ v.videoId := by
          intro h
          exact hnot (by simp [h])
        have hne : (v.videoId == e.videoId) = false := by
          refine beq_eq_false_iff_ne.mpr ?_
          intro h
          exact hnv h.symm
        refine ⟨fun hs => hnot (List.mem_cons_of_mem _ hs), ?_⟩
        rw [find?_cons_eq]
        simp [hne, hfind]

/-! ### Lemmas about the stable sort -/

theorem insertByViews_perm (x : ScoredEntry) (l : List ScoredEntry) :
    (insertByViews x l).Perm (x :: l) := by
  induction l with
  | nil => simp [insertByViews]
  | cons y ys ih =>
    rw [insertByViews]
    by_cases h : y.viewCount ≤ x.viewCount
    · simp [h]
    · rw [if_neg h]
      exact ((ih.cons y).trans (List.Perm.swap x y ys))

theorem sortByViews_perm (l : List ScoredEntry) : (sortByViews l).Perm l := by
  induction l with
  | nil => simp [sortByViews]
  | cons x xs ih =>
    rw [sortByViews]
    exact (insertByViews_perm x (sortByViews xs)).trans (ih.cons x)

theorem insertByViews_pairwise (x : ScoredEntry) (l : List ScoredEntry)
    (h : l.Pairwise fun a b => b.viewCount ≤ a.viewCount) :
    (insertByViews x l).Pairwise fun a b => b.viewCount ≤ a.viewCount := by
  induction l with
  | nil => simp [insertByViews]
  | cons y ys ih =>
    rw [insertByViews]
    rcases List.pairwise_cons.mp h with ⟨hy, hys⟩
    by_cases hc : y.viewCount ≤ x.viewCount
    · rw [if_pos hc]
      refine List.pairwise_cons.mpr ⟨?_, h⟩
      intro b hb
      rcases List.mem_cons.mp hb with rfl | hb'
      · exact hc
      · exact le_trans (hy b hb') hc
    · rw [if_neg hc]
      refine List.pairwise_cons.mpr ⟨?_, ih hys⟩
      intro b hb
      have hb2 : b ∈ x :: ys := (insertByViews_perm x ys).mem_iff.mp hb
      rcases List.mem_cons.mp hb2 with rfl | hb'
      · exact le_of_lt (lt_of_not_le hc)
      · exact hy b hb'

theorem sortByViews_pairwise (l : List ScoredEntry) :
    (sortByViews l).Pairwise fun a b => b.viewCount ≤ a.viewCount := by
  induction l with
  | nil => simp [sortByViews]
  | cons x xs ih => exact insertByViews_pairwise x _ ih

/-- Stability of the insertion step, expressed through filtering at one
view count: inserting an entry of that count prepends it, since the
entries it jumps over are strictly larger. -/
theorem filter_insertByViews_pos (x : ScoredEntry) (l : List ScoredEntry)
    (k : Nat) (hx : x.viewCount = k) :
    (insertByViews x l).filter (fun e => e.viewCount == k) =
      x :: l.filter (fun e => e.viewCount == k) := by
  induction l with
  | nil => simp [insertByViews, List.filter_cons, hx]
  | cons y ys ih =>
    rw [insertByViews]
    by_cases hc : y.viewCount ≤ x.viewCount
    · rw [if_pos hc]
      simp [List.filter_cons, hx]
    · rw [if_neg hc]
      have hy : ¬(y.viewCount == k) = true := by
        simp only [beq_iff_eq]
        omega
      simp [List.filter_cons, hy, ih]

theorem filter_insertByViews_neg (x : ScoredEntry) (l : List ScoredEntry)
    (k : Nat) (hx : x.viewCount ≠ k) :
    (insertByViews x l).filter (fun e => e.viewCount == k) =
      l.filter (fun e => e.viewCount == k) := by
  induction l with
  | nil => simp [insertByViews, List.filter_cons, hx]
  | cons y ys ih =>
    rw [insertByViews]
    by_cases hc : y.viewCount ≤ x.viewCount
    · rw [if_pos hc]
      simp [List.filter_cons, hx]
    · rw [if_neg hc]
      simp [List.filter_cons, ih]

/-- Stability of the sort: among the entries of any one view count, the
sorted output preserves the input order. -/
theorem filter_sortByViews (l : List ScoredEntry) (k : Nat) :
    (sortByViews l).filter (fun e => e.viewCount == k) =
      l.filter (fun e => e.viewCount == k) := by
  induction l with
  | nil => simp [sortByViews]
  | cons x xs ih =>
    rw [sortByViews]
    by_cases hx : x.viewCount = k
    · rw [filter_insertByViews_pos x _ k hx, ih]
      simp [List.filter_cons, hx]
    · rw [filter_insertByViews_neg x _ k hx, ih]
      simp [List.filter_cons, hx]

/-! ### Lemmas about rank assignment -/

theorem finalize_map_rank (l : List ScoredEntry) (i : Nat) :
    (finalize i l).map TrendingVideoResult.rank = List.range' i l.length := by
  induction l generalizing i with
  | nil => simp [finalize]
  | cons e rest ih => simp [finalize, List.range'_succ, ih]

theorem finalize_length (l : List ScoredEntry) (i : Nat) :
    (finalize i l).length = l.length := by
  induction l generalizing i with
  | nil => rfl
  | cons e rest ih => simp [finalize, ih]

theorem mem_finalize (l : List ScoredEntry) (i : Nat)
    (v : TrendingVideoResult) (hv : v ∈ finalize i l) :
    ∃ e ∈ l, eraseRank v = eraseRank e.toTrendingVideoResult := by
  induction l generalizing i with
  | nil => simp [finalize] at hv
  | cons e rest ih =>
    rw [finalize] at hv
    rcases List.mem_cons.mp hv with rfl | hmem
    · exact ⟨e, List.mem_cons_self e rest, rfl⟩
    · obtain ⟨e', he', heq⟩ := ih (i + 1) hmem
      exact ⟨e', List.mem_cons_of_mem e he', heq⟩

theorem finalize_countP_videoId (l : List ScoredEntry) (i : Nat) (id : String) :
    (finalize i l).countP (fun v => v.videoId == id) =
      l.countP (fun e => e.videoId == id) := by
  induction l generalizing i with
  | nil => rfl
  | cons e rest ih => simp [finalize, List.countP_cons, ih]

theorem finalize_filter_map_videoId (l : List ScoredEntry) (i : Nat) (k : Nat) :
    ((finalize i l).filter (fun v => v.viewCount == k)).map
        TrendingVideoResult.videoId =
      (l.filter (fun e => e.viewCount == k)).map (fun e => e.videoId) := by
  induction l generalizing i with
  | nil => rfl
  | cons e rest ih =>
    rw [finalize, List.filter_cons, List.filter_cons]
    by_cases hk : e.viewCount = k
    · simp only [show ({ e.toTrendingVideoResult with rank := i } :
        TrendingVideoResult).viewCount = e.viewCount from rfl, hk,
        beq_self_eq_true, if_true, List.map_cons, ih]
    · have hne : (e.viewCount == k) = false := by simp [hk]
      simp only [show ({ e.toTrendingVideoResult with rank := i } :
        TrendingVideoResult).viewCount = e.viewCount from rfl, hne,
        Bool.false_eq_true, if_false, ih]

theorem viewCount_eraseRank (v : TrendingVideoResult) :
    (eraseRank v).viewCount = v.viewCount := rfl

theorem videoId_eraseRank (v : TrendingVideoResult) :
    (eraseRank v).videoId = v.videoId := rfl

theorem finalize_pairwise (l : List ScoredEntry) (i : Nat)
    (h : l.Pairwise fun a b => b.viewCount ≤ a.viewCount) :
    (finalize i l).Pairwise fun a b => b.viewCount ≤ a.viewCount := by
  induction l generalizing i with
  | nil => simp [finalize]
  | cons e rest ih =>
    rw [finalize]
    rcases List.pairwise_cons.mp h with ⟨he, hrest⟩
    refine List.pairwise_cons.mpr ⟨?_, ih (i + 1) hrest⟩
    intro b hb
    obtain ⟨e', he', heq⟩ := mem_finalize rest (i + 1) b hb
    have hbe : b.viewCount = e'.viewCount := by
      have := congrArg TrendingVideoResult.viewCount heq
      simpa [viewCount_eraseRank] using this
    rw [hbe]
    exact he e' he'

/-! ### Lemmas about the association-list maps -/

theorem mapGet_mapSet_self {β : Type} (m : List (String × β)) (k : String)
    (v : β) : mapGet (mapSet m k v) k = some v := by
  induction m with
  | nil => simp [mapSet, mapGet]
  | cons p rest ih =>
    rw [mapSet]
    by_cases h : p.1 == k
    · rw [if_pos h, mapGet]
      simp
    · rw [if_neg h, mapGet, if_neg h]
      exact ih

theorem mem_keys_mapSet {β : Type} (m : List (String × β)) (k x : String)
    (v : β) (hx : x ∈ (mapSet m k v).map Prod.fst) :
    x ∈ m.map Prod.fst ∨ x = k := by
  induction m with
  | nil => simpa [mapSet] using hx
  | cons p rest ih =>
    rw [mapSet] at hx
    by_cases h : p.1 == k
    · rw [if_pos h] at hx
      rcases List.mem_cons.mp hx with rfl | hmem
      · exact Or.inr rfl
      · exact Or.inl (List.mem_cons_of_mem _ hmem)
    · rw [if_neg h] at hx
      rcases List.mem_cons.mp hx with rfl | hmem
      · exact Or.inl (List.mem_cons_self _ _)
      · rcases ih hmem with h1 | h2
        · exact Or.inl (List.mem_cons_of_mem _ h1)
        · exact Or.inr h2

theorem mapSet_keys_nodup {β : Type} (m : List (String × β)) (k : String)
    (v : β) (h : (m.map Prod.fst).Nodup) :
    ((mapSet m k v).map Prod.fst).Nodup := by
  induction m with
  | nil => simp [mapSet]
  | cons p rest ih =>
    rw [mapSet]
    rw [List.map_cons] at h
    rcases List.nodup_cons.mp h with ⟨hp, hrest⟩
    by_cases hc : p.1 == k
    · rw [if_pos hc]
      have hk : (k : String) = p.1 := (beq_iff_eq.mp hc).symm
      simp only [List.map_cons, List.nodup_cons]
      exact ⟨hk ▸ hp, hrest⟩
    · rw [if_neg hc]
      simp only [List.map_cons, List.nodup_cons]
      refine ⟨?_, ih hrest⟩
      intro hmem
      rcases mem_keys_mapSet rest k p.1 v hmem with h1 | h2
      · exact hp h1
      · exact hc (beq_iff_eq.mpr h2)

theorem mapGet_eq_none_of_not_mem {β : Type} (m : List (String × β))
    (k : String) (h : k ∉ m.map Prod.fst) : mapGet m k = none := by
  induction m with
  | nil => rfl
  | cons p rest ih =>
    rw [mapGet]
    have hne : (p.1 == k) = false := by
      refine beq_eq_false_iff_ne.mpr ?_
      intro hc
      exact h (by simp [hc])
    rw [hne]
    · simp only [Bool.false_eq_true, if_false]
      exact ih (fun hm => h (List.mem_cons_of_mem _ hm))

theorem mapGet_mapDelete_self {β : Type} (m : List (String × β)) (k : String)
    (h : (m.map Prod.fst).Nodup) : mapGet (mapDelete m k) k = none := by
  induction m with
  | nil => rfl
  | cons p rest ih =>
    rw [mapDelete]
    rw [List.map_cons] at h
    rcases List.nodup_cons.mp h with ⟨hp, hrest⟩
    by_cases hc : p.1 == k
    · rw [if_pos hc]
      have hk : k = p.1 := (beq_iff_eq.mp hc).symm
      exact mapGet_eq_none_of_not_mem rest k (hk ▸ hp)
    · rw [if_neg hc, mapGet, if_neg hc]
      exact ih hrest

/-! ### Lemmas about branch outputs -/

theorem mem_flattenOk (outcomes : List BranchOutcome) (e : ScoredEntry)
    (he : e ∈ flattenOk outcomes) :
    ∃ vs, BranchOutcome.ok vs ∈ outcomes ∧ e ∈ vs := by
  induction outcomes with
  | nil => simp [flattenOk] at he
  | cons o rest ih =>
    cases o with
    | ok vs =>
      rw [flattenOk] at he
      rcases List.mem_append.mp he with h1 | h2
      · exact ⟨vs, List.mem_cons_self _ _, h1⟩
      · obtain ⟨ws, hws, hew⟩ := ih h2
        exact ⟨ws, List.mem_cons_of_mem _ hws, hew⟩
    | quotaErr =>
      rw [flattenOk] at he
      obtain ⟨ws, hws, hew⟩ := ih he
      exact ⟨ws, List.mem_cons_of_mem _ hws, hew⟩
    | otherErr =>
      rw [flattenOk] at he
      obtain ⟨ws, hws, hew⟩ := ih he
      exact ⟨ws, List.mem_cons_of_mem _ hws, hew⟩

theorem mem_processDetailsItems (now : Int) (items : List YTVideoItem)
    (e : ScoredEntry) (he : e ∈ processDetailsItems now items) :
    ∃ item ∈ items, isShort item = false ∧ e = videoToEntry now item := by
  unfold processDetailsItems at he
  have he1 := List.mem_of_mem_filter he
  obtain ⟨item, hitem, heq⟩ := List.mem_map.mp he1
  have hitem1 := List.mem_of_mem_filter hitem
  have hshort := List.of_mem_filter hitem
  exact ⟨item, hitem1, by simpa using hshort, heq.symm⟩

/-- Unfolding of the short-video predicate being false. -/
theorem isShort_eq_false_iff (item : YTVideoItem) :
    isShort item = false ↔
      strContains (strLower item.title) "#shorts" = false ∧
      strContains (strLower item.title) "#short" = false ∧
      (item.tags.any fun t => strLower t == "shorts" ||
        strLower t == "#shorts") = false ∧
      60 < parseDurationSeconds item.duration := by
  simp only [isShort, Bool.or_eq_false_iff, decide_eq_false_iff_not, not_le]
  tauto

/-! ### Lemmas about cache-key serialization -/

theorem takeWhile_no_quote (l r : List Char)
    (h : ∀ c ∈ l, ¬(c = '"')) :
    (l ++ '"' :: r).takeWhile (fun c => !(c == '"')) = l := by
  induction l with
  | nil => simp [List.takeWhile_cons]
  | cons c cs ih =>
    have hc : ¬(c = '"') := h c (List.mem_cons_self c cs)
    have hcb : (c == '"') = false := beq_eq_false_iff_ne.mpr hc
    rw [List.cons_append, List.takeWhile_cons]
    simp only [hcb, Bool.not_false, if_true]
    rw [ih (fun x hx => h x (List.mem_cons_of_mem c hx))]

/-- Explicit decomposition of the cache key of a two-field record. -/
theorem getCacheKey_two (ns a b : String) (va vb : JVal) :
    getCacheKey ns [(a, va), (b, vb)] =
      "youtube_" ++ ns ++ "_" ++ "\x7b" ++ "\"" ++
        (a ++ ("\":" ++ jvalToJSON va ++ "," ++ "\"" ++ b ++ "\":" ++
          jvalToJSON vb ++ "\x7d")) := by
  simp only [getCacheKey, jsonStringify, serializeFields, String.append_assoc]

/-- C4 (amended): cache key derivation is a deterministic serialization of
namespace plus parameters in field *insertion order* — identical fields in
identical order always yield the identical key, which is definitional, but
swapping two distinct fields (with quote-free names, as all params records
of the code have) changes the derived key, so equal field values in a
different order do not produce identical keys. -/
theorem getCacheKey_swap_ne (ns a b : String) (va vb : JVal)
    (ha : ∀ c ∈ a.data, ¬(c = '"')) (hb : ∀ c ∈ b.data, ¬(c = '"'))
    (hab : a ≠ b) :
    getCacheKey ns [(a, va), (b, vb)] ≠ getCacheKey ns [(b, vb), (a, va)] := by
  intro h
  rw [getCacheKey_two, getCacheKey_two] at h
  have hdata := congrArg String.data h
  simp only [String.data_append] at hdata
  have hcancel := List.append_cancel_left hdata
  simp only [List.cons_append, List.nil_append] at hcancel
  have htake := congrArg (List.takeWhile (fun c => !(c == '"'))) hcancel
  rw [takeWhile_no_quote _ _ ha, takeWhile_no_quote _ _ hb] at htake
  exact hab (String.ext htake)

/-! ## Claim theorems -/

/-- C1: a quota-exceeded rejection in any branch of the trending fan-out —
in particular when every branch fails with one — makes the `GET` handler
return the static fallback dataset, filtered by the requested category, as
a successful (non-error) JSON response: aggregation of the whole batch is
aborted and routed to the fallback. -/
theorem quota_signal_routes_to_fallback (mock : List TrendingVideoResult)
    (apiKey : String) (now : Int) (category : Option String) (c : RouteCache)
    (outcomes : List BranchOutcome)
    (hmiss : (getCached c now (category.getD "all")).1 = none)
    (hquota : BranchOutcome.quotaErr ∈ outcomes) :
    (GETtrending mock (some apiKey) now category c outcomes).1 =
      .json (fallbackFor mock category) := by
  have hq : hasQuota outcomes = true := hasQuota_of_mem outcomes hquota
  have hmodel : fetchTrendingVideosModel outcomes = none := by
    rw [fetchTrendingVideosModel, collectVideos_eq, hq]
    rfl
  simp only [GETtrending, Option.isNone_some, Bool.false_eq_true, if_false,
    hmiss, hmodel]

/-- Witness for C1: with every branch quota-rejected, a cold cache and a
requested category, the response is the category-filtered fallback. -/
theorem quota_signal_routes_to_fallback_witness :
    (GETtrending [demoEntry.toTrendingVideoResult] (some "key") 0
        (some "React") [] [.quotaErr, .quotaErr]).1 =
      .json (fallbackFor [demoEntry.toTrendingVideoResult] (some "React")) :=
  quota_signal_routes_to_fallback [demoEntry.toTrendingVideoResult] "key" 0
    (some "React") [] [.quotaErr, .quotaErr] rfl (by simp)

/-- C2 counterexample: with every attempt answered by a plain HTTP 500
(no quota reason), `fetchWithRetry` raises the error out of the *first*
attempt and performs no backoff delay at all — the claimed 3 attempts with
1s and 2s delays never happen for non-2xx responses. -/
theorem fetchWithRetry_500_immediate :
    fetchWithRetryModel (fun _ => .httpErr 500 false) 3 1000 =
      (.apiError 500 false 1, []) ∧
    (fetchWithRetryModel (fun _ => .httpErr 500 false) 3 1000).2 ≠
      [1000, 2000] := by
  constructor <;> decide

/-- C2 (amended): a non-2xx response without a quota reason raises an
error carrying the status that propagates to the caller immediately, out
of the first attempt and with no delay; only failures of the `fetch` call
itself (network-level errors) are retried, up to 3 total attempts with
delays 1000ms × 2^(i−2) before attempt i (1s, then 2s), after which the
last error propagates. -/
theorem fetchWithRetry_amended (env env2 : Nat → FetchOutcome) (st : Nat)
    (q : Bool) (h1 : env 0 = .httpErr st q) (hq : ¬(st = 403 ∧ q = true))
    (h2 : ∀ i, i < 3 → env2 i = .netErr) :
    fetchWithRetryModel env 3 1000 = (.apiError st false 1, []) ∧
    fetchWithRetryModel env2 3 1000 = (.netFail 3, [1000, 2000]) := by
  constructor
  · rw [fetchWithRetryModel, fetchLoop, h1]
    have hfalse : (decide (st = 403) && q) = false := by
      cases q with
      | false => simp
      | true =>
        simp only [Bool.and_true, decide_eq_false_iff_not]
        intro hst
        exact hq ⟨hst, rfl⟩
    simp only [hfalse]
  · rw [fetchWithRetryModel, fetchLoop, h2 0 (by norm_num)]
    norm_num
    rw [fetchLoop, h2 1 (by norm_num)]
    norm_num
    rw [fetchLoop, h2 2 (by norm_num)]
    norm_num

/-- Witness for C2 (amended), at a 404 environment and an
always-network-failing environment. -/
theorem fetchWithRetry_amended_witness :
    fetchWithRetryModel (fun _ => .httpErr 404 false) 3 1000 =
      (.apiError 404 false 1, []) ∧
    fetchWithRetryModel (fun _ => .netErr) 3 1000 =
      (.netFail 3, [1000, 2000]) :=
  fetchWithRetry_amended (fun _ => .httpErr 404 false) (fun _ => .netErr)
    404 false rfl (by decide) (fun i _ => rfl)

/-- C9: when the API key is absent, the trending `GET` handler returns the
missing-credential error with status 500 for every request — regardless of
the cache contents, the branch outcomes (no upstream call or retry can
influence the result) and the fallback dataset (which is never served),
and it leaves the cache untouched. -/
theorem missing_key_fatal (mock : List TrendingVideoResult) (now : Int)
    (category : Option String) (c : RouteCache)
    (outcomes : List BranchOutcome) :
    GETtrending mock none now category c outcomes =
      (.jsonError missingKeyMsg 500, c) := rfl

/-- C3: for every cache key, a `get` issued immediately after a `set` with
positive TTL returns the stored value, and a `get` issued strictly after
the entry's expiry returns absent and removes the entry — both for the
`APICache` of youtube-data.ts (explicit `expiresAt`) and for the
module-level route cache of route.ts (`timestamp` plus the fixed 1-hour
TTL). -/
theorem cache_ttl_roundtrip {α : Type} (st : APICacheState α) (now now2 : Int)
    (ns : String) (params : List (String × JVal)) (data : α) (ttl : Int)
    (httl : 0 < ttl) (hkeys : (st.map Prod.fst).Nodup)
    (c : RouteCache) (key : String) (vids : List TrendingVideoResult)
    (hck : (c.map Prod.fst).Nodup) :
    (cacheGet (cacheSet st now ns params data ttl) now ns params).1 =
        some data ∧
    (now + ttl < now2 →
      (cacheGet (cacheSet st now ns params data ttl) now2 ns params).1 =
          none ∧
      mapGet (cacheGet (cacheSet st now ns params data ttl) now2 ns params).2
        (getCacheKey ns params) = none) ∧
    (getCached (setCache c now key vids) now key).1 = some vids ∧
    (now + CACHE_TTL_MS < now2 →
      (getCached (setCache c now key vids) now2 key).1 = none ∧
      mapGet (getCached (setCache c now key vids) now2 key).2 key = none) := by
  refine ⟨?_, fun hexp => ⟨?_, ?_⟩, ?_, fun hexp => ⟨?_, ?_⟩⟩
  · rw [cacheGet, cacheSet]
    simp only [mapGet_mapSet_self]
    rw [if_neg (by omega)]
  · rw [cacheGet, cacheSet]
    simp only [mapGet_mapSet_self]
    rw [if_pos (by omega)]
  · rw [cacheGet, cacheSet]
    simp only [mapGet_mapSet_self]
    rw [if_pos (by omega)]
    exact mapGet_mapDelete_self _ _ (mapSet_keys_nodup st _ _ hkeys)
  · rw [getCached, setCache]
    simp only [mapGet_mapSet_self]
    rw [if_neg (by unfold CACHE_TTL_MS; omega)]
  · rw [getCached, setCache]
    simp only [mapGet_mapSet_self]
    rw [if_pos (by unfold CACHE_TTL_MS at hexp ⊢; omega)]
  · rw [getCached, setCache]
    simp only [mapGet_mapSet_self]
    rw [if_pos (by unfold CACHE_TTL_MS at hexp ⊢; omega)]
    exact mapGet_mapDelete_self _ _ (mapSet_keys_nodup c _ _ hck)

/-- Witness for C3, on the empty caches at time 0 with the
trending-videos namespace, TTL one hour and a read at expiry plus 1ms. -/
theorem cache_ttl_roundtrip_witness :
    (cacheGet (cacheSet ([] : APICacheState Nat) 0 "trendingVideos"
        [("category", JVal.str "AI tutorials"), ("limit", JVal.num 20)] 7
        3600000) 0 "trendingVideos"
        [("category", JVal.str "AI tutorials"), ("limit", JVal.num 20)]).1 =
      some 7 ∧
    ((0 : Int) + 3600000 < 3600001 →
      (cacheGet (cacheSet ([] : APICacheState Nat) 0 "trendingVideos"
          [("category", JVal.str "AI tutorials"), ("limit", JVal.num 20)] 7
          3600000) 3600001 "trendingVideos"
          [("category", JVal.str "AI tutorials"), ("limit", JVal.num 20)]).1 =
        none ∧
      mapGet (cacheGet (cacheSet ([] : APICacheState Nat) 0 "trendingVideos"
          [("category", JVal.str "AI tutorials"), ("limit", JVal.num 20)] 7
          3600000) 3600001 "trendingVideos"
          [("category", JVal.str "AI tutorials"), ("limit", JVal.num 20)]).2
        (getCacheKey "trendingVideos"
          [("category", JVal.str "AI tutorials"), ("limit", JVal.num 20)]) =
        none) ∧
    (getCached (setCache [] 0 "all" []) 0 "all").1 = some [] ∧
    ((0 : Int) + CACHE_TTL_MS < 3600001 →
      (getCached (setCache [] 0 "all" []) 3600001 "all").1 = none ∧
      mapGet (getCached (setCache [] 0 "all" []) 3600001 "all").2 "all" =
        none) :=
  cache_ttl_roundtrip ([] : APICacheState Nat) 0 3600001 "trendingVideos"
    [("category", JVal.str "AI tutorials"), ("limit", JVal.num 20)] 7 3600000
    (by norm_num) (by simp) [] "all" [] (by simp)

/-- C4 counterexample: two parameter records with equal field values whose
fields appear in a different order (they are permutations of one another)
produce different cache keys, because `JSON.stringify` serializes object
fields in insertion order. -/
theorem cacheKey_field_order_counterexample :
    ([("category", JVal.str "AI tutorials"), ("limit", JVal.num 20)]).Perm
      [("limit", JVal.num 20), ("category", JVal.str "AI tutorials")] ∧
    getCacheKey "trendingVideos"
        [("category", JVal.str "AI tutorials"), ("limit", JVal.num 20)] ≠
      getCacheKey "trendingVideos"
        [("limit", JVal.num 20), ("category", JVal.str "AI tutorials")] := by
  constructor
  · exact List.Perm.swap _ _ _
  · decide

/-- Witness for C4 (amended): the swap of the two fields of the
trending-videos params record changes the key. -/
theorem getCacheKey_swap_ne_witness :
    getCacheKey "trendingVideos"
        [("category", JVal.str "x"), ("limit", JVal.num 20)] ≠
      getCacheKey "trendingVideos"
        [("limit", JVal.num 20), ("category", JVal.str "x")] :=
  getCacheKey_swap_ne "trendingVideos" "category" "limit" (JVal.str "x")
    (JVal.num 20) (by decide) (by decide) (by decide)

/-- C5: for every non-empty (indeed every) successful aggregated trending
output, the rank fields form the dense sequence 1..n in list order, the
list is sorted by descending view count (the trending route's ranking
field), and among entries of equal view count the output preserves the
original discovery order of the deduplicated fan-out results. -/
theorem trending_rank_dense_sorted_stable (outcomes : List BranchOutcome)
    (out : List TrendingVideoResult)
    (h : fetchTrendingVideosModel outcomes = some out) :
    out.map TrendingVideoResult.rank = List.range' 1 out.length ∧
    out.Pairwise (fun a b => b.viewCount ≤ a.viewCount) ∧
    ∀ k : Nat,
      (out.filter (fun v => v.viewCount == k)).map
          TrendingVideoResult.videoId =
        ((dedupList [] (flattenOk outcomes)).filter
          (fun e => e.viewCount == k)).map (fun e => e.videoId) := by
  obtain ⟨hq, hout⟩ := (model_eq_some outcomes out).mp h
  subst hout
  refine ⟨?_, ?_, ?_⟩
  · rw [finalize_map_rank, finalize_length]
  · exact finalize_pairwise _ 1 (sortByViews_pairwise _)
  · intro k
    rw [finalize_filter_map_videoId, filter_sortByViews]

/-- Witness for C5, on two fulfilled branches with three entries (two of
them tied on view count, listed in discovery order in the tie). -/
theorem trending_rank_witness :
    (finalize 1 (sortByViews (dedupList []
        (flattenOk [.ok [demoEntry, demoEntryB], .ok [demoEntryDup]])))).map
          TrendingVideoResult.rank =
      List.range' 1 (finalize 1 (sortByViews (dedupList []
        (flattenOk [.ok [demoEntry, demoEntryB],
          .ok [demoEntryDup]])))).length ∧
    (finalize 1 (sortByViews (dedupList []
        (flattenOk [.ok [demoEntry, demoEntryB],
          .ok [demoEntryDup]])))).Pairwise
      (fun a b => b.viewCount ≤ a.viewCount) ∧
    ∀ k : Nat,
      ((finalize 1 (sortByViews (dedupList []
          (flattenOk [.ok [demoEntry, demoEntryB],
            .ok [demoEntryDup]])))).filter
          (fun v => v.viewCount == k)).map TrendingVideoResult.videoId =
        ((dedupList [] (flattenOk [.ok [demoEntry, demoEntryB],
            .ok [demoEntryDup]])).filter
          (fun e => e.viewCount == k)).map (fun e => e.videoId) :=
  trending_rank_dense_sorted_stable
    [.ok [demoEntry, demoEntryB], .ok [demoEntryDup]] _ (by decide)

/-- C6: whenever the same video id occurs in two or more entries across
the fulfilled branch results (with possibly different statistics), a
successful aggregated output contains exactly one entry carrying that
id. -/
theorem dedup_unique_entry (outcomes : List BranchOutcome)
    (out : List TrendingVideoResult) (id : String)
    (h : fetchTrendingVideosModel outcomes = some out)
    (hdup : 2 ≤ (flattenOk outcomes).countP (fun e => e.videoId == id)) :
    out.countP (fun v => v.videoId == id) = 1 := by
  obtain ⟨hq, hout⟩ := (model_eq_some outcomes out).mp h
  subst hout
  rw [finalize_countP_videoId]
  rw [(sortByViews_perm (dedupList [] (flattenOk outcomes))).countP_eq]
  rw [countP_dedupList]
  rw [if_neg (List.not_mem_nil id)]
  exact Nat.min_eq_left (by omega)

/-- Witness for C6: the id `"a"` occurs in two branches with different
view counts; the output carries exactly one entry for it. -/
theorem dedup_unique_entry_witness :
    (finalize 1 (sortByViews (dedupList []
        (flattenOk [.ok [demoEntry, demoEntryB],
          .ok [demoEntryDup]])))).countP (fun v => v.videoId == "a") = 1 :=
  dedup_unique_entry [.ok [demoEntry, demoEntryB], .ok [demoEntryDup]] _ "a"
    (by decide) (by decide)

/-- C10: the deduplication policy is first-seen-wins — every entry of a
successful aggregated output equals (up to the recomputed rank) the
*first* entry carrying its video id in the concatenation of the fulfilled
branch results, taken in configured query order. -/
theorem dedup_first_seen_policy (outcomes : List BranchOutcome)
    (out : List TrendingVideoResult)
    (h : fetchTrendingVideosModel outcomes = some out)
    (v : TrendingVideoResult) (hv : v ∈ out) :
    ∃ w : ScoredEntry,
      (flattenOk outcomes).find? (fun e => e.videoId == v.videoId) = some w ∧
      eraseRank w.toTrendingVideoResult = eraseRank v := by
  obtain ⟨hq, hout⟩ := (model_eq_some outcomes out).mp h
  subst hout
  obtain ⟨e, he, heq⟩ := mem_finalize _ 1 v hv
  have hes : e ∈ dedupList [] (flattenOk outcomes) :=
    (sortByViews_perm _).mem_iff.mp he
  obtain ⟨-, hfind⟩ := mem_dedupList_first (flattenOk outcomes) [] e hes
  have hvid : v.videoId = e.videoId := by
    have := congrArg TrendingVideoResult.videoId heq
    simpa [videoId_eraseRank] using this
  refine ⟨e, ?_, heq.symm⟩
  rw [hvid]
  exact hfind

/-- Witness for C10: with the id `"a"` produced by both branches, the
output entry for it is the one of the first branch. -/
theorem dedup_first_seen_policy_witness :
    ∃ w : ScoredEntry,
      (flattenOk [.ok [demoEntry], .ok [demoEntryDup]]).find?
        (fun e => e.videoId ==
          ({ demoEntry.toTrendingVideoResult with rank := 1 } :
            TrendingVideoResult).videoId) = some w ∧
      eraseRank w.toTrendingVideoResult =
        eraseRank { demoEntry.toTrendingVideoResult with rank := 1 } :=
  dedup_first_seen_policy [.ok [demoEntry], .ok [demoEntryDup]]
    [{ demoEntry.toTrendingVideoResult with rank := 1 }] (by decide)
    { demoEntry.toTrendingVideoResult with rank := 1 } (by decide)

/-- C7: no video item with a parsed duration of at most 60 seconds, or a
`#shorts`/`#short` marker in its lower-cased title, or a tag equal
case-insensitively to `shorts` or `#shorts`, ever appears in the final
trending output: whenever every fulfilled branch was produced by the
per-query pipeline, each output entry descends (up to rank) from an item
the short-video predicate rejected — in particular one longer than 60
seconds with no title or tag marker. -/
theorem no_shorts_in_output (now : Int) (outcomes : List BranchOutcome)
    (out : List TrendingVideoResult)
    (hbr : ∀ vs, BranchOutcome.ok vs ∈ outcomes →
      ∃ items, vs = processDetailsItems now items)
    (h : fetchTrendingVideosModel outcomes = some out)
    (v : TrendingVideoResult) (hv : v ∈ out) :
    ∃ item : YTVideoItem, isShort item = false ∧
      60 < parseDurationSeconds item.duration ∧
      strContains (strLower item.title) "#shorts" = false ∧
      strContains (strLower item.title) "#short" = false ∧
      (item.tags.any fun t => strLower t == "shorts" ||
        strLower t == "#shorts") = false ∧
      eraseRank v = eraseRank (videoToEntry now item).toTrendingVideoResult := by
  obtain ⟨hq, hout⟩ := (model_eq_some outcomes out).mp h
  subst hout
  obtain ⟨e, he, heq⟩ := mem_finalize _ 1 v hv
  have hes : e ∈ dedupList [] (flattenOk outcomes) :=
    (sortByViews_perm _).mem_iff.mp he
  have hef : e ∈ flattenOk outcomes :=
    (dedupList_sublist [] (flattenOk outcomes)).mem hes
  obtain ⟨vs, hvs, hev⟩ := mem_flattenOk outcomes e hef
  obtain ⟨items, hitems⟩ := hbr vs hvs
  subst hitems
  obtain ⟨item, hitem, hshort, hee⟩ :=
    mem_processDetailsItems now items e hev
  obtain ⟨h1, h2, h3, h4⟩ := (isShort_eq_false_iff item).mp hshort
  exact ⟨item, hshort, h4, h1, h2, h3, by rw [heq, hee]⟩

/-- Witness for C7: one branch built from a genuine item and a short item;
the single output entry descends from the non-short item. -/
theorem no_shorts_in_output_witness :
    ∃ item : YTVideoItem, isShort item = false ∧
      60 < parseDurationSeconds item.duration ∧
      strContains (strLower item.title) "#shorts" = false ∧
      strContains (strLower item.title) "#short" = false ∧
      (item.tags.any fun t => strLower t == "shorts" ||
        strLower t == "#shorts") = false ∧
      eraseRank { (videoToEntry 0 demoItem).toTrendingVideoResult with
          rank := 1 } =
        eraseRank (videoToEntry 0 item).toTrendingVideoResult :=
  no_shorts_in_output 0
    [.ok (processDetailsItems 0 [demoItem, demoItemShort])]
    [{ (videoToEntry 0 demoItem).toTrendingVideoResult with rank := 1 }]
    (fun vs hvs => ⟨[demoItem, demoItemShort], by
      simpa using hvs⟩)
    (by decide)
    { (videoToEntry 0 demoItem).toTrendingVideoResult with rank := 1 }
    (by decide)

/-- C8: on views 1,000,000, likes 50,000, duration 600s, published exactly
two hours before now, the quality-score components are 40 (like ratio
capped), 30 (velocity capped) and 30 (10 minutes in the 5–20 minute sweet
spot), and the total quality score is exactly 100. -/
theorem quality_score_scenario (now : ℚ) :
    likeScoreOf 1000000 50000 = 40 ∧
    velocityScoreOf 1000000 now (now - 7200000) = 30 ∧
    durationScoreOf 600 = 30 ∧
    calculateQualityScore 1000000 50000 now (now - 7200000) 600 = 100 := by
  have hh : hoursOldOf now (now - 7200000) = 2 := by
    rw [hoursOldOf]
    have h7 : now - (now - 7200000) = 7200000 := by ring
    rw [h7]
    norm_num
  have hl : likeScoreOf 1000000 50000 = 40 := by
    rw [likeScoreOf]
    norm_num
  have hv : velocityScoreOf 1000000 now (now - 7200000) = 30 := by
    rw [velocityScoreOf, hh]
    norm_num
  have hd : durationScoreOf 600 = 30 := by
    rw [durationScoreOf]
    norm_num
  refine ⟨hl, hv, hd, ?_⟩
  rw [calculateQualityScore, hl, hv, hd]
  norm_num

end YTDash
